import Mathlib

/-!
Verification of the schema-driven codec and enrichment pipeline of the
eas-substreams repository (src/lib.rs and src/schema_parser.rs).

Strings are modelled as lists of characters (`List Char`); the Rust code
slices schema strings at byte indices, which coincides with character
indices for the ASCII schema texts the code handles.  Bytes are modelled
as `Nat` (each < 256 where it matters).  Functions that can panic in Rust
(panic!, unwrap, expect) return a `PResult`; `FieldType::from_str`, which
returns a `Result` in Rust but whose tuple branch can itself panic through
`parse_schema_fields`, returns an `RRes`.
-/

namespace EAS

/-- Outcome of a Rust function that returns a plain value but can panic.
A panic aborts the whole wasm module run. -/
inductive PResult (α : Type) where
  | ok (a : α)
  | panic (msg : String)

/-- Outcome of a Rust function that returns a `Result` but can also panic
through a nested call. -/
inductive RRes (α : Type) where
  | ok (a : α)
  | err (e : String)
  | panic (msg : String)

def PResult.isPanic : PResult α → Bool
  | .ok _ => false
  | .panic _ => true

def RRes.isPanic : RRes α → Bool
  | .panic _ => true
  | _ => false

/-- Model of Rust `str::trim`: drop whitespace from both ends. -/
def trimList (l : List Char) : List Char :=
  ((l.dropWhile Char.isWhitespace).reverse.dropWhile Char.isWhitespace).reverse

theorem trimList_length_le (l : List Char) : (trimList l).length ≤ l.length := by
  unfold trimList
  calc ((l.dropWhile Char.isWhitespace).reverse.dropWhile Char.isWhitespace).reverse.length
      = ((l.dropWhile Char.isWhitespace).reverse.dropWhile Char.isWhitespace).length := by
        simp
    _ ≤ (l.dropWhile Char.isWhitespace).reverse.length :=
        (List.dropWhile_suffix _).sublist.length_le
    _ = (l.dropWhile Char.isWhitespace).length := by simp
    _ ≤ l.length := (List.dropWhile_suffix _).sublist.length_le

/-- The comma-splitting loop shared by both `parse_schema_fields` variants:
split at commas that sit at parenthesis depth 0 (`depth` is a Rust `i32`),
pushing one field substring per comma and a final field only when some text
remains after the last top-level comma. -/
def splitTopComma (depth : Int) (cur : List Char) : List Char → List (List Char)
  | [] => if cur = [] then [] else [cur]
  | c :: rest =>
    if c = '(' then splitTopComma (depth + 1) (cur ++ [c]) rest
    else if c = ')' then splitTopComma (depth - 1) (cur ++ [c]) rest
    else if c = ',' ∧ depth = 0 then cur :: splitTopComma depth [] rest
    else splitTopComma depth (cur ++ [c]) rest

/-- Total size of a segment list, counting one extra per segment;
used as the termination measure for the recursive-descent parsers. -/
def segWeight : List (List Char) → Nat
  | [] => 0
  | seg :: rest => seg.length + 1 + segWeight rest

theorem segWeight_splitTopComma (rest : List Char) :
    ∀ (depth : Int) (cur : List Char),
      segWeight (splitTopComma depth cur rest) ≤ cur.length + rest.length + 1 := by
  induction rest with
  | nil =>
    intro depth cur
    simp only [splitTopComma]
    split
    · simp [segWeight]
    · simp [segWeight]
  | cons c rest ih =>
    intro depth cur
    simp only [splitTopComma]
    split
    · have := ih (depth + 1) (cur ++ [c])
      simp only [List.length_append, List.length_cons, List.length_nil] at *
      omega
    split
    · have := ih (depth - 1) (cur ++ [c])
      simp only [List.length_append, List.length_cons, List.length_nil] at *
      omega
    split
    · have := ih depth []
      simp only [segWeight, List.length_nil, List.length_cons] at *
      omega
    · have := ih depth (cur ++ [c])
      simp only [List.length_append, List.length_cons, List.length_nil] at *
      omega

/-- Model of Rust `str::split_whitespace`: maximal runs of non-whitespace. -/
def splitWsAux (cur : List Char) : List Char → List (List Char)
  | [] => if cur = [] then [] else [cur]
  | c :: rest =>
    if c.isWhitespace then
      if cur = [] then splitWsAux [] rest else cur :: splitWsAux [] rest
    else splitWsAux (cur ++ [c]) rest

def splitWs (l : List Char) : List (List Char) := splitWsAux [] l

theorem splitWsAux_mem_length (l : List Char) :
    ∀ (cur seg : List Char), seg ∈ splitWsAux cur l → seg.length ≤ cur.length + l.length := by
  induction l with
  | nil =>
    intro cur seg h
    simp only [splitWsAux] at h
    split at h
    · simp at h
    · simp at h
      subst h
      simp
  | cons c rest ih =>
    intro cur seg h
    simp only [splitWsAux] at h
    split at h
    · split at h
      · have := ih [] seg h
        simp only [List.length_nil, List.length_cons] at *
        omega
      · rcases List.mem_cons.mp h with h1 | h2
        · subst h1
          simp only [List.length_cons]
          omega
        · have := ih [] seg h2
          simp only [List.length_nil, List.length_cons] at *
          omega
    · have := ih (cur ++ [c]) seg h
      simp only [List.length_append, List.length_cons, List.length_nil] at *
      omega

theorem splitWs_mem_length {seg : List Char} (l : List Char) (h : seg ∈ splitWs l) :
    seg.length ≤ l.length := by
  have := splitWsAux_mem_length l [] seg h
  simpa using this

/-- The backwards scan of `parse_field` in schema_parser.rs: walk the field
characters from the end (argument list is the reversed field, `j` the index
of its head in the original string, `d` the running depth, a Rust `i32`),
returning the index of the last space at depth 0, or 0 if there is none. -/
def lastTopSpaceAux : List Char → Nat → Int → Nat
  | [], _, _ => 0
  | c :: rest, j, d =>
    if c = ')' then lastTopSpaceAux rest (j - 1) (d + 1)
    else if c = '(' then lastTopSpaceAux rest (j - 1) (d - 1)
    else if c = ' ' ∧ d = 0 then j
    else lastTopSpaceAux rest (j - 1) d

def lastTopSpace (field : List Char) : Nat :=
  lastTopSpaceAux field.reverse (field.length - 1) 0

/-- Numeric value of a digit string (most significant digit first). -/
def digitsVal (ds : List Char) : Nat :=
  ds.foldl (fun acc c => acc * 10 + (c.toNat - 48)) 0

/-- Model of Rust `str::parse::<usize>()`: an optional leading `+`, then one
or more ASCII digits, with the value bounded by the usize range (the
substreams module targets wasm32, so usize is 32 bits). -/
def parseUsize (s : List Char) : Option Nat :=
  let ds := if s.head? = some '+' then s.tail else s
  if ds ≠ [] ∧ ds.all Char.isDigit ∧ digitsVal ds < 2 ^ 32 then some (digitsVal ds)
  else none

/-- Lowercase hex digit for a nibble, as produced by `Hex::encode`. -/
def hexDigit (n : Nat) : Char :=
  if n < 10 then Char.ofNat (48 + n) else Char.ofNat (87 + n)

/-- Model of `Hex::encode`: two lowercase hex digits per byte, high nibble
first. -/
def hexEncode : List Nat → List Char
  | [] => []
  | b :: rest => hexDigit (b / 16) :: hexDigit (b % 16) :: hexEncode rest

/-- Model of `ethabi::ParamType`, restricted to the constructors the code
can produce. -/
inductive ParamType where
  | address
  | bytes
  | int (bits : Nat)
  | uint (bits : Nat)
  | bool
  | string
  | fixedBytes (size : Nat)
  | array (inner : ParamType)
  | fixedArray (size : Nat) (inner : ParamType)
  | tuple (inner : List ParamType)

/-- Model of `ethabi::Token`.  `int` and `uint` carry the raw 256-bit word
as a `Nat` (ethabi stores both as a `U256`; a negative signed value is kept
in two's complement form). -/
inductive Token where
  | address (addr : List Nat)
  | fixedBytes (bytes : List Nat)
  | bytes (bytes : List Nat)
  | int (word : Nat)
  | uint (word : Nat)
  | bool (b : Bool)
  | string (s : String)
  | fixedArray (arr : List Token)
  | array (arr : List Token)
  | tuple (tup : List Token)

/-- Model of `serde_json::Value`.  The `num` constructor exists so that
"never serialized as a JSON number" is expressible; the codec never
produces it. -/
inductive Value where
  | null
  | bool (b : Bool)
  | num (q : Int)
  | str (s : String)
  | arr (vs : List Value)
  | obj (kvs : List (String × Value))

def Value.isObj : Value → Bool
  | .obj _ => true
  | _ => false

def Value.isNum : Value → Bool
  | .num _ => true
  | _ => false

/-- The signed integer a 256-bit `Int` token word denotes (two's
complement), i.e. the abstract decoded value for a solidity `int`. -/
def int256Value (w : Nat) : Int :=
  if w < 2 ^ 255 then (w : Int) else (w : Int) - 2 ^ 256

/-- Model of `serde_json::Map::insert`: overwrite the value of an existing
key in place, otherwise append the new entry.  (The map is a BTreeMap by
default; entry iteration order is not relied on by the properties below,
which are stated through `objLookup` or with keys whose insertion order is
already sorted.) -/
def mapInsert : List (String × Value) → String → Value → List (String × Value)
  | [], k, v => [(k, v)]
  | (k0, v0) :: rest, k, v =>
    if k0 = k then (k, v) :: rest else (k0, v0) :: mapInsert rest k v

/-- Build a `serde_json::Map` by inserting the given pairs in order, as the
projection loops do. -/
def objOfPairs (pairs : List (String × Value)) : List (String × Value) :=
  pairs.foldl (fun m p => mapInsert m p.1 p.2) []

/-- Key lookup in a JSON object. -/
def objLookup (k : String) : List (String × Value) → Option Value
  | [] => none
  | p :: rest => if p.1 = k then some p.2 else objLookup k rest

mutual
/-- `token_to_json`, textually identical in lib.rs (lines 113-127) and
schema_parser.rs (lines 100-112): schema-less projection of a decoded
token.  Tuples, like arrays, are rendered as JSON arrays here. -/
def token_to_json : Token → Value
  | .address addr => .str (String.mk ('0' :: 'x' :: hexEncode addr))
  | .fixedBytes bytes => .str (String.mk ('0' :: 'x' :: hexEncode bytes))
  | .bytes bytes => .str (String.mk ('0' :: 'x' :: hexEncode bytes))
  | .int i => .str (Nat.repr i)
  | .uint i => .str (Nat.repr i)
  | .bool b => .bool b
  | .string s => .str s
  | .array arr => .arr (token_to_json_list arr)
  | .fixedArray arr => .arr (token_to_json_list arr)
  | .tuple tup => .arr (token_to_json_list tup)
def token_to_json_list : List Token → List Value
  | [] => []
  | t :: ts => token_to_json t :: token_to_json_list ts
end

namespace Lib

/-- `bytes_to_hex` from lib.rs: empty input gives the empty string,
otherwise a 0x-prefixed lowercase hex string.  (Not used by
`token_to_json`, which always prefixes 0x.) -/
def bytes_to_hex (bytes : List Nat) : String :=
  if bytes = [] then "" else String.mk ('0' :: 'x' :: hexEncode bytes)

mutual
/-- The recursive-descent pair `parse_type` / `parse_schema_fields` of
lib.rs, lines 46-111.  The extra `Nat` argument, always at least the stated
measure, makes the mutual recursion structural so that the definitions
compute; the wrappers below instantiate it.  In the Rust code the trimmed
type string shadows `typ`; here `trimList typ` is written out each time.
`parseFieldsListB` is the body of the splitting loop, run on the comma
segments. -/
def parseTypeB : (n : Nat) → (typ : List Char) → 2 * typ.length + 1 ≤ n → PResult ParamType
  | 0, _, h => absurd h (by omega)
  | n + 1, typ, h =>
    if h6 : (trimList typ).take 6 = ("tuple(").data ∧ (trimList typ).getLast? = some ')' then
      match parseSchemaFieldsB n (((trimList typ).drop 6).dropLast)
          (by
            have h1 : 6 ≤ (trimList typ).length := by
              have h0 := congrArg List.length h6.1
              simp only [List.length_take] at h0
              have : min 6 (trimList typ).length = 6 := by rw [h0]; rfl
              omega
            have h2 : (trimList typ).length ≠ 6 := by
              intro hlen
              have ht : trimList typ = ("tuple(").data := by
                rw [← h6.1]
                exact (List.take_of_length_le (le_of_eq hlen)).symm
              rw [ht] at h6
              exact absurd h6.2 (by decide)
            have h3 : (trimList typ).length ≤ typ.length := trimList_length_le typ
            simp only [List.length_dropLast, List.length_drop]
            omega) with
      | .panic m => .panic m
      | .ok fields => .ok (.tuple (fields.map Prod.fst))
    else if h2 : (trimList typ).drop ((trimList typ).length - 2) = [ '[', ']' ] then
      match parseTypeB n ((trimList typ).take ((trimList typ).length - 2))
          (by
            have hlen : 2 ≤ (trimList typ).length := by
              have h0 := congrArg List.length h2
              simp only [List.length_drop, List.length_cons, List.length_nil] at h0
              omega
            have h3 : (trimList typ).length ≤ typ.length := trimList_length_le typ
            simp only [List.length_take]
            omega) with
      | .panic m => .panic m
      | .ok inner => .ok (.array inner)
    else if trimList typ = ("bytes32").data then .ok (.fixedBytes 32)
    else if trimList typ = ("uint8").data then .ok (.uint 8)
    else if trimList typ = ("uint16").data then .ok (.uint 16)
    else if trimList typ = ("uint32").data then .ok (.uint 32)
    else if trimList typ = ("uint64").data then .ok (.uint 64)
    else if trimList typ = ("uint128").data then .ok (.uint 128)
    else if trimList typ = ("uint256").data then .ok (.uint 256)
    else if trimList typ = ("bool").data then .ok (.bool)
    else if trimList typ = ("string").data then .ok (.string)
    else if trimList typ = ("address").data then .ok (.address)
    else .panic ("Unsupported type: " ++ String.mk (trimList typ))
def parseFieldsListB : (n : Nat) → (segs : List (List Char)) → 2 * segWeight segs + 2 ≤ n →
    PResult (List (ParamType × String))
  | 0, _, h => absurd h (by omega)
  | _ + 1, [], _ => .ok []
  | n + 1, seg :: rest, h =>
    match hsw : splitWs (trimList seg) with
    | [] => .panic ("called Option::unwrap() on a None value")
    | typ :: parts =>
      match parseTypeB n typ
          (by
            have h1 : typ.length ≤ (trimList seg).length :=
              splitWs_mem_length _ (by rw [hsw]; exact List.mem_cons_self _ _)
            have h2 : (trimList seg).length ≤ seg.length := trimList_length_le seg
            simp only [segWeight] at h
            omega) with
      | .panic m => .panic m
      | .ok t =>
        match parseFieldsListB n rest (by simp only [segWeight] at h; omega) with
        | .panic m => .panic m
        | .ok fields =>
          let name := match parts with
            | [] => "field"
            | nm :: _ => String.mk nm
          .ok ((t, name) :: fields)
def parseSchemaFieldsB : (n : Nat) → (schema : List Char) → 2 * schema.length + 5 ≤ n →
    PResult (List (ParamType × String))
  | 0, _, h => absurd h (by omega)
  | n + 1, schema, h =>
    parseFieldsListB n (splitTopComma 0 [] schema)
      (by
        have := segWeight_splitTopComma schema 0 []
        simp only [List.length_nil] at this
        omega)
end

/-- `parse_type` from lib.rs (lines 47-74). -/
def parse_type (typ : List Char) : PResult ParamType :=
  parseTypeB (2 * typ.length + 1) typ (le_refl _)

/-- `parse_schema_fields` from lib.rs (lines 46-111): split the schema at
top-level commas, take the first whitespace token of each field as the type
and the second (if any) as the name, defaulting to "field". -/
def parse_schema_fields (schema : List Char) : PResult (List (ParamType × String)) :=
  parseSchemaFieldsB (2 * schema.length + 5) schema (le_refl _)

/-- `decode_data` from lib.rs (lines 28-43).  The ethabi `decode` routine is
an external collaborator and is passed in as `dec`; on a decode error the
code logs and continues with an empty token vector, so the zip produces an
empty object. -/
def decode_data (dec : List ParamType → List Nat → Except String (List Token))
    (data : List Nat) (schema_signature : List Char) : PResult (List (String × Value)) :=
  match parse_schema_fields schema_signature with
  | .panic m => .panic m
  | .ok fields =>
    let types := fields.map Prod.fst
    let tokens := match dec types data with
      | .ok ts => ts
      | .error _ => []
    .ok (objOfPairs ((fields.zip tokens).map fun p => (p.1.2, token_to_json p.2)))

end Lib

namespace SchemaParser

/-- `FieldType` from schema_parser.rs: a primitive param type, a tuple of
named fields, or an array. -/
inductive FieldType where
  | primitive (p : ParamType)
  | tuple (fields : List (FieldType × String))
  | array (inner : FieldType)

/-- The type/name split of `parse_field` (schema_parser.rs lines 43-61):
the type ends at the last space that sits at parenthesis depth 0 counted
from the right; when that index is 0 the whole field is the type and the
name defaults to "field". -/
def splitFieldParts (field : List Char) : List Char × String :=
  let te := lastTopSpace field
  if te > 0 then (trimList (field.take te), String.mk (trimList (field.drop te)))
  else (trimList field, "field")

theorem splitFieldParts_fst_length_le (field : List Char) :
    (splitFieldParts field).1.length ≤ field.length := by
  by_cases h : lastTopSpace field > 0
  · simp only [splitFieldParts, if_pos h]
    calc (trimList (field.take (lastTopSpace field))).length
        ≤ (field.take (lastTopSpace field)).length := trimList_length_le _
      _ ≤ field.length := by simp only [List.length_take]; omega
  · simp only [splitFieldParts, if_neg h]
    exact trimList_length_le field

mutual
/-- `FieldType::from_str` (schema_parser.rs lines 13-41).  Unknown tokens
and unparsable numeric widths yield `Err`; the tuple branch goes through
`parse_schema_fields`, whose `parse_field` can panic.  As in lib.rs, the
extra `Nat` argument makes the recursion structural and the wrappers below
instantiate it. -/
def fromStrB : (n : Nat) → (typ : List Char) → 2 * typ.length + 1 ≤ n → RRes FieldType
  | 0, _, h => absurd h (by omega)
  | n + 1, typ, h =>
    if h6 : (trimList typ).take 6 = ("tuple(").data ∧ (trimList typ).getLast? = some ')' then
      match parseSchemaFieldsB n (((trimList typ).drop 6).dropLast)
          (by
            have h1 : 6 ≤ (trimList typ).length := by
              have h0 := congrArg List.length h6.1
              simp only [List.length_take] at h0
              have : min 6 (trimList typ).length = 6 := by rw [h0]; rfl
              omega
            have h2 : (trimList typ).length ≠ 6 := by
              intro hlen
              have ht : trimList typ = ("tuple(").data := by
                rw [← h6.1]
                exact (List.take_of_length_le (le_of_eq hlen)).symm
              rw [ht] at h6
              exact absurd h6.2 (by decide)
            have h3 : (trimList typ).length ≤ typ.length := trimList_length_le typ
            simp only [List.length_dropLast, List.length_drop]
            omega) with
      | .panic m => .panic m
      | .ok fields => .ok (.tuple fields)
    else if h2 : (trimList typ).drop ((trimList typ).length - 2) = [ '[', ']' ] then
      match fromStrB n ((trimList typ).take ((trimList typ).length - 2))
          (by
            have hlen : 2 ≤ (trimList typ).length := by
              have h0 := congrArg List.length h2
              simp only [List.length_drop, List.length_cons, List.length_nil] at h0
              omega
            have h3 : (trimList typ).length ≤ typ.length := trimList_length_le typ
            simp only [List.length_take]
            omega) with
      | .panic m => .panic m
      | .err e => .err e
      | .ok inner => .ok (.array inner)
    else if trimList typ = ("bytes").data then .ok (.primitive .bytes)
    else if (trimList typ).take 4 = ("uint").data then
      match parseUsize ((trimList typ).drop 4) with
      | some bits => .ok (.primitive (.uint bits))
      | none => .err ("Invalid uint size: " ++ String.mk ((trimList typ).drop 4))
    else if (trimList typ).take 3 = ("int").data then
      match parseUsize ((trimList typ).drop 3) with
      | some bits => .ok (.primitive (.int bits))
      | none => .err ("Invalid int size: " ++ String.mk ((trimList typ).drop 3))
    else if (trimList typ).take 5 = ("bytes").data then
      match parseUsize ((trimList typ).drop 5) with
      | some size => .ok (.primitive (.fixedBytes size))
      | none => .err ("Invalid bytes size: " ++ String.mk ((trimList typ).drop 5))
    else if trimList typ = ("bool").data then .ok (.primitive .bool)
    else if trimList typ = ("string").data then .ok (.primitive .string)
    else if trimList typ = ("address").data then .ok (.primitive .address)
    else .err ("Unsupported type: " ++ String.mk (trimList typ))
def parseFieldB : (n : Nat) → (field : List Char) → 2 * field.length + 3 ≤ n →
    PResult (FieldType × String)
  | 0, _, h => absurd h (by omega)
  | n + 1, field, h =>
    match fromStrB n (splitFieldParts field).1
        (by have := splitFieldParts_fst_length_le field; omega) with
    | .err _ => .panic ("failed to parse type: " ++ String.mk (splitFieldParts field).1)
    | .panic m => .panic m
    | .ok ft => .ok (ft, (splitFieldParts field).2)
def parseFieldsListB : (n : Nat) → (segs : List (List Char)) → 2 * segWeight segs + 4 ≤ n →
    PResult (List (FieldType × String))
  | 0, _, h => absurd h (by omega)
  | _ + 1, [], _ => .ok []
  | n + 1, seg :: rest, h =>
    match parseFieldB n (trimList seg)
        (by
          have := trimList_length_le seg
          simp only [segWeight] at h
          omega) with
    | .panic m => .panic m
    | .ok f =>
      match parseFieldsListB n rest (by simp only [segWeight] at h; omega) with
      | .panic m => .panic m
      | .ok fields => .ok (f :: fields)
def parseSchemaFieldsB : (n : Nat) → (schema : List Char) → 2 * schema.length + 7 ≤ n →
    PResult (List (FieldType × String))
  | 0, _, h => absurd h (by omega)
  | n + 1, schema, h =>
    parseFieldsListB n (splitTopComma 0 [] schema)
      (by
        have := segWeight_splitTopComma schema 0 []
        simp only [List.length_nil] at this
        omega)
end

/-- `FieldType::from_str` as exposed by the `FromStr` impl. -/
def FieldType.fromStr (typ : List Char) : RRes FieldType :=
  fromStrB (2 * typ.length + 1) typ (le_refl _)

/-- `parse_field` (schema_parser.rs lines 43-63): split off the name at the
last top-level space, then unwrap `from_str` with `expect`, panicking on a
type error.  (Rust `Result::expect` appends the Debug form of the error to
the panic message; only the format-string part is modelled.) -/
def parse_field (field : List Char) : PResult (FieldType × String) :=
  parseFieldB (2 * field.length + 3) field (le_refl _)

/-- `parse_schema_fields` (schema_parser.rs lines 65-89): split the schema
at top-level commas and run `parse_field` on each trimmed segment.  The
`substreams::log::info!` call has no observable effect and is not
modelled. -/
def parse_schema_fields (schema : List Char) : PResult (List (FieldType × String)) :=
  parseSchemaFieldsB (2 * schema.length + 7) schema (le_refl _)

/-- `fieldtype_to_paramtype` (schema_parser.rs lines 92-98): structural
erasure of names; no width validation happens here. -/
def fieldtype_to_paramtype : FieldType → ParamType
  | .primitive p => p
  | .tuple fields => .tuple (fields.attach.map fun x => fieldtype_to_paramtype x.1.1)
  | .array inner => .array (fieldtype_to_paramtype inner)
decreasing_by
  all_goals first
    | (obtain ⟨⟨f, nm⟩, hmem⟩ := x
       have hx := List.sizeOf_lt_of_mem hmem
       simp at hx ⊢
       omega)
    | simp

mutual
/-- `token_to_json_with_schema` (schema_parser.rs lines 114-127): walk the
field tree and token tree in lock-step; a tuple field with a tuple token
builds an object keyed by the field names of the zipped prefix, an array
field with an array token maps over the elements, any other mismatch
projects to null. -/
def token_to_json_with_schema : FieldType → Token → Value
  | .primitive _, t => token_to_json t
  | .tuple fields, .tuple tokens => .obj (objOfPairs (tjwsZip fields tokens))
  | .array inner, .array tokens => .arr (tjwsArr inner tokens)
  | _, _ => .null
termination_by ft t => sizeOf ft + sizeOf t
decreasing_by all_goals (simp; omega)
/-- The zipped iteration of the tuple branch of `token_to_json_with_schema`,
producing the (name, projected value) pairs in order. -/
def tjwsZip : List (FieldType × String) → List Token → List (String × Value)
  | _, [] => []
  | [], _ :: _ => []
  | (f, name) :: fields, t :: tokens =>
    (name, token_to_json_with_schema f t) :: tjwsZip fields tokens
termination_by fields tokens => sizeOf fields + sizeOf tokens
decreasing_by all_goals (simp; omega)
/-- The element mapping of the array branch of `token_to_json_with_schema`. -/
def tjwsArr : FieldType → List Token → List Value
  | _, [] => []
  | inner, t :: tokens => token_to_json_with_schema inner t :: tjwsArr inner tokens
termination_by inner tokens => sizeOf inner + sizeOf tokens
decreasing_by all_goals (first | (simp; omega) | simp)
end

end SchemaParser

namespace Lib

/-- The fields of a decoded `Attested` log event that `map_eas_events`
uses (`abi::eas_contract::events::Attested`). -/
structure AttestedEvent where
  uid : List Nat
  schemaId : List Nat
  attester : List Nat
  recipient : List Nat

/-- The `Attestation` struct of lib.rs (lines 129-141), as filled from the
`GetAttestation` call result. -/
structure Attestation where
  uid : List Nat
  schema : List Nat
  time : Nat
  expiration_time : Nat
  revocation_time : Nat
  ref_uid : List Nat
  recipient : List Nat
  attester : List Nat
  revocable : Bool
  data : List Nat

/-- The `Schema` struct of lib.rs (lines 143-149), as filled from the
`GetSchema` call result; the schema text is kept as a character list. -/
structure SchemaRecord where
  uid_id : List Nat
  resolver : List Nat
  revocable : Bool
  schema : List Char

/-- One eth_call issued by `map_eas_events`: a `GetAttestation` against the
EAS contract or a `GetSchema` against the schema registry. -/
inductive EthCall where
  | getAttestation (uid : List Nat)
  | getSchema (uid : List Nat)
deriving DecidableEq

def EthCall.isSchemaFetch : EthCall → Bool
  | .getSchema _ => true
  | _ => false

def EthCall.isRecordFetch : EthCall → Bool
  | .getAttestation _ => true
  | _ => false

def EthCall.schemaFetchId : EthCall → Option (List Nat)
  | .getSchema uid => some uid
  | _ => none

/-- The output record `contract::EasAttested` built per matched log.  The
block-positional metadata (tx hash, log index, block number and time) and
the JSON serialization of the decoded object are not modelled. -/
structure EasAttested where
  attester : List Nat
  recipient : List Nat
  schema_id : List Nat
  uid : List Nat
  data : List Nat
  schema : List Char
  decoded_data : List (String × Value)

/-- `map_eas_events` (lib.rs lines 151-230), restricted to what it does per
log: the input list holds `some ev` for each log of the tracked contract
that `Attested::match_and_decode` accepts and `none` for every other log.
For each matched event the code calls `GetAttestation(ev.uid)`, then
`GetSchema(attestation.schema)`, then decodes the payload — there is no
batching and no de-duplication of schema lookups.  The two eth_call
interfaces are external collaborators passed in as total functions (the
code unwraps call failures with `expect`, which would panic; the success
path is modelled).  Returns the output records (or the panic that aborts
the module, e.g. from an unparsable schema) together with the trace of
issued calls, in order. -/
def map_eas_events (getAtt : List Nat → Attestation) (getSch : List Nat → SchemaRecord)
    (dec : List ParamType → List Nat → Except String (List Token)) :
    List (Option AttestedEvent) → PResult (List EasAttested) × List EthCall
  | [] => (.ok [], [])
  | none :: logs => map_eas_events getAtt getSch dec logs
  | some ev :: logs =>
    let att := getAtt ev.uid
    let sch := getSch att.schema
    match decode_data dec att.data sch.schema with
    | .panic m => (.panic m, [.getAttestation ev.uid, .getSchema att.schema])
    | .ok obj =>
      let record : EasAttested :=
        { attester := ev.attester
          recipient := ev.recipient
          schema_id := ev.schemaId
          uid := ev.uid
          data := att.data
          schema := sch.schema
          decoded_data := obj }
      let rest := map_eas_events getAtt getSch dec logs
      ((match rest.1 with
        | .ok records => .ok (record :: records)
        | .panic m => .panic m),
       .getAttestation ev.uid :: .getSchema att.schema :: rest.2)

end Lib

/-! Helper lemmas about JSON object building, the projection helpers and
hex encoding. -/

theorem objLookup_mapInsert (m : List (String × Value)) (k k' : String) (v : Value) :
    objLookup k' (mapInsert m k v) = if k' = k then some v else objLookup k' m := by
  induction m with
  | nil =>
    simp only [mapInsert, objLookup]
    by_cases hk : k = k'
    · subst hk; simp
    · rw [if_neg hk, if_neg (fun h => hk h.symm)]
  | cons p rest ih =>
    obtain ⟨k0, v0⟩ := p
    by_cases h0 : k0 = k
    · subst h0
      by_cases hk : k0 = k'
      · subst hk
        simp [mapInsert, objLookup]
      · simp [mapInsert, objLookup, hk, Ne.symm hk]
    · by_cases hk : k0 = k'
      · subst hk
        simp [mapInsert, objLookup, h0, Ne.symm h0]
      · simp [mapInsert, objLookup, h0, hk, ih]

theorem objLookup_foldl_mapInsert (pairs : List (String × Value)) :
    ∀ (acc : List (String × Value)) (k : String),
      objLookup k (pairs.foldl (fun m p => mapInsert m p.1 p.2) acc)
        = ((pairs.reverse.find? fun p => p.1 == k).map Prod.snd).or (objLookup k acc) := by
  induction pairs with
  | nil => intro acc k; simp
  | cons p rest ih =>
    intro acc k
    simp only [List.foldl_cons, List.reverse_cons]
    rw [ih (mapInsert acc p.1 p.2) k, List.find?_append]
    cases hfind : rest.reverse.find? fun q => q.1 == k with
    | some q => simp
    | none =>
      rw [objLookup_mapInsert]
      by_cases hp : p.1 = k
      · subst hp
        simp [List.find?]
      · have hb : (p.1 == k) = false := by simpa [beq_iff_eq] using hp
        simp [List.find?, hb, show ¬ k = p.1 from fun hk => hp hk.symm]

/-- The value stored for a key after building a JSON object by repeated
insertion is the value of the last pair carrying that key. -/
theorem objLookup_objOfPairs (pairs : List (String × Value)) (k : String) :
    objLookup k (objOfPairs pairs)
      = (pairs.reverse.find? fun p => p.1 == k).map Prod.snd := by
  unfold objOfPairs
  rw [objLookup_foldl_mapInsert pairs [] k]
  simp [objLookup]

theorem mapInsert_not_mem (m : List (String × Value)) (k : String) (v : Value)
    (h : k ∉ m.map Prod.fst) : mapInsert m k v = m ++ [(k, v)] := by
  induction m with
  | nil => rfl
  | cons p rest ih =>
    obtain ⟨k0, v0⟩ := p
    simp only [List.map_cons, List.mem_cons] at h
    push_neg at h
    simp only [mapInsert, if_neg (Ne.symm h.1)]
    rw [ih h.2]
    simp

theorem foldl_mapInsert_nodup (pairs : List (String × Value)) :
    ∀ (acc : List (String × Value)),
      (((acc ++ pairs).map Prod.fst).Nodup) →
      pairs.foldl (fun m p => mapInsert m p.1 p.2) acc = acc ++ pairs := by
  induction pairs with
  | nil => intro acc _; simp
  | cons p rest ih =>
    intro acc hnd
    simp only [List.foldl_cons]
    have hnotin : p.1 ∉ acc.map Prod.fst := by
      intro hmem1
      have hmem2 : p.1 ∈ (p :: rest).map Prod.fst := by simp
      rw [List.map_append, List.nodup_append] at hnd
      exact hnd.2.2 hmem1 hmem2
    rw [mapInsert_not_mem acc p.1 p.2 hnotin]
    have := ih (acc ++ [p]) (by simpa using hnd)
    simpa using this

/-- Building a JSON object from pairs with pairwise distinct keys keeps
exactly those pairs, in order. -/
theorem objOfPairs_nodup (pairs : List (String × Value))
    (h : (pairs.map Prod.fst).Nodup) : objOfPairs pairs = pairs := by
  unfold objOfPairs
  have := foldl_mapInsert_nodup pairs [] (by simpa using h)
  simpa using this

theorem token_to_json_list_eq_map (ts : List Token) :
    token_to_json_list ts = ts.map token_to_json := by
  induction ts with
  | nil => rfl
  | cons t ts ih => simp only [token_to_json_list, List.map_cons, ih]

theorem tjwsZip_eq_map (fields : List (SchemaParser.FieldType × String)) :
    ∀ (tokens : List Token),
      SchemaParser.tjwsZip fields tokens
        = (fields.zip tokens).map fun p =>
            (p.1.2, SchemaParser.token_to_json_with_schema p.1.1 p.2) := by
  induction fields with
  | nil =>
    intro tokens
    cases tokens <;> simp [SchemaParser.tjwsZip]
  | cons f fields ih =>
    intro tokens
    cases tokens with
    | nil => simp [SchemaParser.tjwsZip]
    | cons t tokens =>
      obtain ⟨ft, name⟩ := f
      simp only [SchemaParser.tjwsZip, List.zip_cons_cons, List.map_cons, ih]

theorem tjwsArr_eq_map (inner : SchemaParser.FieldType) (tokens : List Token) :
    SchemaParser.tjwsArr inner tokens
      = tokens.map (SchemaParser.token_to_json_with_schema inner) := by
  induction tokens with
  | nil => simp [SchemaParser.tjwsArr]
  | cons t tokens ih => simp only [SchemaParser.tjwsArr, List.map_cons, ih]

theorem zip_keys_take (fields : List (SchemaParser.FieldType × String)) :
    ∀ (tokens : List Token),
      ((fields.zip tokens).map fun p => p.1.2)
        = (fields.map Prod.snd).take tokens.length := by
  induction fields with
  | nil => intro tokens; simp
  | cons f fields ih =>
    intro tokens
    cases tokens with
    | nil => simp
    | cons t tokens => simp [ih]

theorem hexEncode_length (bs : List Nat) : (hexEncode bs).length = 2 * bs.length := by
  induction bs with
  | nil => rfl
  | cons b bs ih => simp only [hexEncode, List.length_cons, ih]; omega

theorem hexDigit_mem (n : Nat) (h : n < 16) : hexDigit n ∈ ("0123456789abcdef").data := by
  interval_cases n <;> decide

theorem hexEncode_mem (bs : List Nat) (hb : ∀ b ∈ bs, b < 256) :
    ∀ c ∈ hexEncode bs, c ∈ ("0123456789abcdef").data := by
  induction bs with
  | nil => intro c hc; simp [hexEncode] at hc
  | cons b bs ih =>
    intro c hc
    have hblt : b < 256 := hb b (List.mem_cons_self b bs)
    simp only [hexEncode, List.mem_cons] at hc
    rcases hc with h1 | h2 | h3
    · exact h1 ▸ hexDigit_mem _ (by omega)
    · exact h2 ▸ hexDigit_mem _ (Nat.mod_lt _ (by omega))
    · exact ih (fun x hx => hb x (List.mem_cons_of_mem b hx)) c h3

theorem dropWhile_eq_self_of_all (l : List Char)
    (h : ∀ c ∈ l, Char.isWhitespace c = false) :
    l.dropWhile Char.isWhitespace = l := by
  cases l with
  | nil => rfl
  | cons c rest =>
    rw [List.dropWhile_cons]
    simp [h c (List.mem_cons_self c rest)]

theorem trimList_eq_self (l : List Char) (h : ∀ c ∈ l, Char.isWhitespace c = false) :
    trimList l = l := by
  unfold trimList
  rw [dropWhile_eq_self_of_all l h,
      dropWhile_eq_self_of_all l.reverse (fun c hc => h c (List.mem_reverse.mp hc)),
      List.reverse_reverse]

/-- A tuple field with a tuple token projects, when the field names are
distinct, to the object holding exactly the zipped (name, projection)
pairs in order. -/
theorem tjws_tuple_obj_of_nodup (fields : List (SchemaParser.FieldType × String))
    (tokens : List Token) (h : (fields.map Prod.snd).Nodup) :
    SchemaParser.token_to_json_with_schema (.tuple fields) (.tuple tokens)
      = .obj ((fields.zip tokens).map fun p =>
          (p.1.2, SchemaParser.token_to_json_with_schema p.1.1 p.2)) := by
  have h1 : SchemaParser.token_to_json_with_schema (.tuple fields) (.tuple tokens)
      = .obj (objOfPairs (SchemaParser.tjwsZip fields tokens)) := by
    simp [SchemaParser.token_to_json_with_schema]
  rw [h1, tjwsZip_eq_map]
  congr 1
  apply objOfPairs_nodup
  have hkeys : (((fields.zip tokens).map fun p =>
      (p.1.2, SchemaParser.token_to_json_with_schema p.1.1 p.2)).map Prod.fst)
      = (fields.map Prod.snd).take tokens.length := by
    rw [List.map_map]
    exact zip_keys_take fields tokens
  rw [hkeys]
  exact h.sublist (List.take_sublist _ _)

theorem digitChars_isDigit : ∀ c ∈ ("0123456789").data, Char.isDigit c = true := by decide

theorem digitChars_notWs : ∀ c ∈ ("0123456789").data, Char.isWhitespace c = false := by decide

theorem digitChars_ne_plus : ∀ c ∈ ("0123456789").data, c ≠ '+' := by decide

theorem digitChars_ne_rparen : ∀ c ∈ ("0123456789").data, c ≠ ')' := by decide

theorem digitChars_ne_rbracket : ∀ c ∈ ("0123456789").data, c ≠ ']' := by decide

theorem lowerChars_notWs :
    ∀ c ∈ ("abcdefghijklmnopqrstuvwxyz").data, Char.isWhitespace c = false := by decide

theorem lowerChars_ne_rparen : ∀ c ∈ ("abcdefghijklmnopqrstuvwxyz").data, c ≠ ')' := by decide

theorem lowerChars_ne_rbracket :
    ∀ c ∈ ("abcdefghijklmnopqrstuvwxyz").data, c ≠ ']' := by decide

/-- On a digit string, Rust usize parsing succeeds with the digit value
(bounded by the 32-bit usize range). -/
theorem parseUsize_digits (ds : List Char) (h1 : ds ≠ [])
    (h2 : ∀ c ∈ ds, c ∈ ("0123456789").data) (h3 : digitsVal ds < 2 ^ 32) :
    parseUsize ds = some (digitsVal ds) := by
  have hhead : ¬ ds.head? = some '+' := by
    cases ds with
    | nil => simp
    | cons c rest =>
      simp only [List.head?_cons, Option.some.injEq]
      exact digitChars_ne_plus c (h2 c (List.mem_cons_self c rest))
  have hdig : ds.all Char.isDigit = true :=
    List.all_eq_true.mpr (fun c hc => digitChars_isDigit c (h2 c hc))
  simp only [parseUsize, if_neg hhead]
  rw [if_pos]
  exact ⟨h1, by simpa using hdig, h3⟩

/-- Evaluation of `FieldType::from_str` on a token that is trimmed (no
surrounding whitespace) and contains no closing parenthesis or closing
bracket: the tuple and array branches do not fire, leaving the primitive
ladder. -/
theorem fromStr_prim_eval (t : List Char)
    (hws : ∀ c ∈ t, Char.isWhitespace c = false)
    (hrp : ∀ c ∈ t, c ≠ ')')
    (hrb : ∀ c ∈ t, c ≠ ']') :
    SchemaParser.FieldType.fromStr t
      = (if t = ("bytes").data then RRes.ok (.primitive .bytes)
         else if t.take 4 = ("uint").data then
           match parseUsize (t.drop 4) with
           | some bits => RRes.ok (.primitive (.uint bits))
           | none => RRes.err ("Invalid uint size: " ++ String.mk (t.drop 4))
         else if t.take 3 = ("int").data then
           match parseUsize (t.drop 3) with
           | some bits => RRes.ok (.primitive (.int bits))
           | none => RRes.err ("Invalid int size: " ++ String.mk (t.drop 3))
         else if t.take 5 = ("bytes").data then
           match parseUsize (t.drop 5) with
           | some size => RRes.ok (.primitive (.fixedBytes size))
           | none => RRes.err ("Invalid bytes size: " ++ String.mk (t.drop 5))
         else if t = ("bool").data then RRes.ok (.primitive .bool)
         else if t = ("string").data then RRes.ok (.primitive .string)
         else if t = ("address").data then RRes.ok (.primitive .address)
         else RRes.err ("Unsupported type: " ++ String.mk t)) := by
  have htrim : trimList t = t := trimList_eq_self t hws
  have htuple : ¬ (List.take 6 t = [ 't', 'u', 'p', 'l', 'e', '(' ]
      ∧ t.getLast? = some ')') := by
    rintro ⟨-, hlast⟩
    exact hrp ')' (List.mem_of_mem_getLast? hlast) rfl
  have harr : ¬ (List.drop (t.length - 2) t = [ '[', ']' ]) := by
    intro hdr
    have h9 : (']' : Char) ∈ t.drop (t.length - 2) := by
      rw [hdr]
      decide
    exact hrb ']' (List.mem_of_mem_drop h9) rfl
  unfold SchemaParser.FieldType.fromStr
  simp only [SchemaParser.fromStrB, htrim]
  rw [dif_neg htuple, dif_neg harr]

/-! The claims.  Each claim is settled by exactly one theorem named
`claimN_theorem`; corrected claims additionally carry a closed
counterexample refuting the original wording at a concrete input, and
theorems with hypotheses carry a closed witness that applies them. -/

/-- Claim C1, counterexample: `decode_data` renders a tuple-typed field as
a JSON array, not as an object keyed by the subfield names.  On schema
"tuple(uint8,uint8)" with a decoder yielding the matching tuple token, the
single field projects to the array of the element projections, which is
not a JSON object. -/
theorem claim1_counterexample :
    Lib.decode_data (fun _ _ => Except.ok [Token.tuple [Token.uint 1, Token.uint 2]]) []
        (("tuple(uint8,uint8)").data)
      = .ok [("field", .arr [.str "1", .str "2"])]
    ∧ Value.isObj (.arr [.str "1", .str "2"]) = false :=
  ⟨rfl, rfl⟩

/-- Claim C1 (amended): `token_to_json_with_schema` projects a tuple field
with a structurally matching tuple value to a JSON object keyed by the
tuple field names (stated for distinct names), and an array field with a
matching array value to a JSON array; `decode_data`, however, projects
through the schema-less `token_to_json`, which renders every tuple token
as a JSON array of its element projections, never as an object. -/
theorem claim1_theorem :
    (∀ (fields : List (SchemaParser.FieldType × String)) (tokens : List Token),
        (fields.map Prod.snd).Nodup →
        SchemaParser.token_to_json_with_schema (.tuple fields) (.tuple tokens)
          = .obj ((fields.zip tokens).map fun p =>
              (p.1.2, SchemaParser.token_to_json_with_schema p.1.1 p.2)))
    ∧ (∀ (inner : SchemaParser.FieldType) (tokens : List Token),
        SchemaParser.token_to_json_with_schema (.array inner) (.array tokens)
          = .arr (tokens.map (SchemaParser.token_to_json_with_schema inner)))
    ∧ (∀ ts : List Token, token_to_json (.tuple ts) = .arr (ts.map token_to_json)) := by
  refine ⟨tjws_tuple_obj_of_nodup, ?_, ?_⟩
  · intro inner tokens
    simp [SchemaParser.token_to_json_with_schema, tjwsArr_eq_map]
  · intro ts
    rw [show token_to_json (.tuple ts) = .arr (token_to_json_list ts) from rfl,
        token_to_json_list_eq_map]

/-- Claim C1, witness instance for the amended tuple clause, at two
distinctly named fields zipped with a single token. -/
theorem claim1_witness :
    (([(SchemaParser.FieldType.primitive ParamType.bool, "a"),
       (SchemaParser.FieldType.primitive ParamType.string, "b")].map Prod.snd).Nodup)
    ∧ SchemaParser.token_to_json_with_schema
        (.tuple [(.primitive ParamType.bool, "a"), (.primitive ParamType.string, "b")])
        (.tuple [Token.bool true])
      = .obj (([(SchemaParser.FieldType.primitive ParamType.bool, "a"),
                (SchemaParser.FieldType.primitive ParamType.string, "b")].zip
                 [Token.bool true]).map fun p =>
            (p.1.2, SchemaParser.token_to_json_with_schema p.1.1 p.2)) :=
  ⟨by decide, claim1_theorem.1 _ _ (by decide)⟩

/-- Claim C2, counterexample: parsing a schema with the unknown type token
"foo" does not return a typed error value — both parse entry points panic
(lib.rs `parse_type` panics directly; schema_parser.rs `parse_field`
unwraps with expect) — even though `FieldType::from_str` itself produces
the typed error naming the token. -/
theorem claim2_counterexample :
    (Lib.parse_schema_fields (("foo").data)).isPanic = true
    ∧ (SchemaParser.parse_schema_fields (("foo").data)).isPanic = true
    ∧ SchemaParser.FieldType.fromStr (("foo").data) = .err ("Unsupported type: foo") :=
  ⟨rfl, rfl, rfl⟩

/-- Claim C2 (amended): `FieldType::from_str` returns a typed error naming
the offending token for every unrecognized lowercase alphabetic token,
never substituting a default type; but schema parsing does not surface
that error as a value: on the schema "foo" the lib.rs parser panics with
the unsupported-type message and the schema_parser.rs parser panics
unwrapping the from_str error with expect, terminating the process. -/
theorem claim2_theorem :
    (∀ t : List Char, t ≠ [] →
        (∀ c ∈ t, c ∈ ("abcdefghijklmnopqrstuvwxyz").data) →
        t.take 4 ≠ ("uint").data → t.take 3 ≠ ("int").data → t.take 5 ≠ ("bytes").data →
        t ≠ ("bool").data → t ≠ ("string").data → t ≠ ("address").data →
        SchemaParser.FieldType.fromStr t = .err ("Unsupported type: " ++ String.mk t))
    ∧ Lib.parse_schema_fields (("foo").data) = .panic ("Unsupported type: foo")
    ∧ SchemaParser.parse_schema_fields (("foo").data)
        = .panic ("failed to parse type: foo") := by
  refine ⟨?_, rfl, rfl⟩
  intro t _ hl h4 h3 h5 hbool hstr haddr
  have hbytes : t ≠ ("bytes").data := by
    intro h
    apply h5
    rw [h]
    rfl
  rw [fromStr_prim_eval t (fun c hc => lowerChars_notWs c (hl c hc))
        (fun c hc => lowerChars_ne_rparen c (hl c hc))
        (fun c hc => lowerChars_ne_rbracket c (hl c hc)),
      if_neg hbytes, if_neg h4, if_neg h3, if_neg h5, if_neg hbool, if_neg hstr,
      if_neg haddr]

/-- Claim C2, witness: the amended from_str clause applied to the token
"foo". -/
theorem claim2_witness :
    (("foo").data ≠ [])
    ∧ SchemaParser.FieldType.fromStr (("foo").data)
        = .err ("Unsupported type: " ++ String.mk (("foo").data)) :=
  ⟨by decide, claim2_theorem.1 _ (by decide) (by decide) (by decide) (by decide) (by decide)
    (by decide) (by decide) (by decide)⟩

/-- Claim C3, counterexample: on a payload whose binary decoding fails,
`decode_data` returns the empty JSON object, not an object with a single
error field. -/
theorem claim3_counterexample :
    Lib.decode_data (fun _ _ => Except.error "buffer too short") [] (("uint8").data)
      = .ok [] :=
  rfl

/-- Claim C3 (amended): whenever the schema parses and the binary decoder
fails on the resolved types, `decode_data` logs and continues with an empty
token vector, so the record degrades to a silently empty JSON object; no
error-marker field is produced and the block is not aborted. -/
theorem claim3_theorem : ∀ (dec : List ParamType → List Nat → Except String (List Token))
    (data : List Nat) (schema : List Char) (fields : List (ParamType × String)) (e : String),
    Lib.parse_schema_fields schema = .ok fields →
    dec (fields.map Prod.fst) data = .error e →
    Lib.decode_data dec data schema = .ok [] := by
  intro dec data schema fields e hp hd
  unfold Lib.decode_data
  rw [hp]
  simp [hd, objOfPairs]

/-- Claim C3, witness: the amended theorem applied to schema "uint8" and an
always-failing decoder. -/
theorem claim3_witness :
    Lib.parse_schema_fields (("uint8").data) = .ok [(ParamType.uint 8, "field")]
    ∧ Lib.decode_data (fun _ _ => Except.error "x") [] (("uint8").data) = .ok [] :=
  ⟨rfl, claim3_theorem _ _ _ _ "x" rfl rfl⟩

/-- Claim C5, counterexample: the `parse_schema_fields` of lib.rs, which is
the one `decode_data` calls, panics on the schema
"tuple(uint8 a, uint8 b) t, uint8 c": it takes the type token up to the
first whitespace, yielding the unsupported token "tuple(uint8". -/
theorem claim5_counterexample :
    Lib.parse_schema_fields (("tuple(uint8 a, uint8 b) t, uint8 c").data)
      = .panic ("Unsupported type: tuple(uint8") :=
  rfl

/-- Claim C5 (amended): the schema_parser.rs `parse_schema_fields`, which
splits the name at the last top-level space, parses the schema
"tuple(uint8 a, uint8 b) t, uint8 c" into exactly 2 top-level fields — a
tuple named t with 2 subfields a and b, and a primitive named c — while
the lib.rs variant panics on the same schema. -/
theorem claim5_theorem :
    SchemaParser.parse_schema_fields (("tuple(uint8 a, uint8 b) t, uint8 c").data)
      = .ok [(.tuple [(.primitive (.uint 8), "a"), (.primitive (.uint 8), "b")], "t"),
             (.primitive (.uint 8), "c")]
    ∧ (Lib.parse_schema_fields (("tuple(uint8 a, uint8 b) t, uint8 c").data)).isPanic
        = true :=
  ⟨rfl, rfl⟩

/-- Claim C6, counterexample: sized-primitive widths are not validated —
`from_str` accepts uint7, uint0 and bytes33 (widths the claim says must be
rejected with a typed error), and `fieldtype_to_paramtype` passes the
unvalidated width through. -/
theorem claim6_counterexample :
    SchemaParser.FieldType.fromStr (("uint7").data) = .ok (.primitive (.uint 7))
    ∧ SchemaParser.FieldType.fromStr (("uint0").data) = .ok (.primitive (.uint 0))
    ∧ SchemaParser.FieldType.fromStr (("bytes33").data) = .ok (.primitive (.fixedBytes 33))
    ∧ SchemaParser.fieldtype_to_paramtype (.primitive (.uint 7)) = ParamType.uint 7 := by
  refine ⟨rfl, rfl, rfl, ?_⟩
  simp [SchemaParser.fieldtype_to_paramtype]

/-- Claim C6 (amended): no numeric-width validation happens at parse or
resolve time.  `from_str` accepts uintN, intN and bytesN for every digit
string N that parses as a usize (below 2 to the 32 on the wasm32 target) —
including uint7, uint0 and bytes33 — producing the corresponding
unvalidated ParamType; only a width that fails usize parsing yields a
typed error.  `fieldtype_to_paramtype` maps a primitive through
unchanged. -/
theorem claim6_theorem :
    (∀ ds : List Char, ds ≠ [] → (∀ c ∈ ds, c ∈ ("0123456789").data) →
        digitsVal ds < 2 ^ 32 →
        SchemaParser.FieldType.fromStr (("uint").data ++ ds)
          = .ok (.primitive (.uint (digitsVal ds))))
    ∧ (∀ ds : List Char, ds ≠ [] → (∀ c ∈ ds, c ∈ ("0123456789").data) →
        digitsVal ds < 2 ^ 32 →
        SchemaParser.FieldType.fromStr (("int").data ++ ds)
          = .ok (.primitive (.int (digitsVal ds))))
    ∧ (∀ ds : List Char, ds ≠ [] → (∀ c ∈ ds, c ∈ ("0123456789").data) →
        digitsVal ds < 2 ^ 32 →
        SchemaParser.FieldType.fromStr (("bytes").data ++ ds)
          = .ok (.primitive (.fixedBytes (digitsVal ds))))
    ∧ (∀ p : ParamType, SchemaParser.fieldtype_to_paramtype (.primitive p) = p) := by
  have hmem : ∀ (pre ds : List Char), (∀ c ∈ pre, Char.isWhitespace c = false ∧ c ≠ ')'
      ∧ c ≠ ']') → (∀ c ∈ ds, c ∈ ("0123456789").data) →
      (∀ c ∈ pre ++ ds, Char.isWhitespace c = false)
      ∧ (∀ c ∈ pre ++ ds, c ≠ ')') ∧ (∀ c ∈ pre ++ ds, c ≠ ']') := by
    intro pre ds hpre hds
    refine ⟨?_, ?_, ?_⟩ <;> intro c hc <;> rcases List.mem_append.mp hc with h | h
    · exact (hpre c h).1
    · exact digitChars_notWs c (hds c h)
    · exact (hpre c h).2.1
    · exact digitChars_ne_rparen c (hds c h)
    · exact (hpre c h).2.2
    · exact digitChars_ne_rbracket c (hds c h)
  refine ⟨?_, ?_, ?_, ?_⟩
  · intro ds h1 h2 h3
    obtain ⟨hws, hrp, hrb⟩ := hmem (("uint").data) ds (by decide) h2
    have hb : ("uint").data ++ ds ≠ ("bytes").data := by
      intro h
      rw [show ("uint").data = [ 'u', 'i', 'n', 't' ] from rfl,
          show ("bytes").data = [ 'b', 'y', 't', 'e', 's' ] from rfl] at h
      simp at h
    rw [fromStr_prim_eval _ hws hrp hrb, if_neg hb,
        if_pos (List.take_left' (show (("uint").data).length = 4 by decide)),
        List.drop_left' (show (("uint").data).length = 4 by decide),
        parseUsize_digits ds h1 h2 h3]
  · intro ds h1 h2 h3
    obtain ⟨hws, hrp, hrb⟩ := hmem (("int").data) ds (by decide) h2
    have hb : ("int").data ++ ds ≠ ("bytes").data := by
      intro h
      rw [show ("int").data = [ 'i', 'n', 't' ] from rfl,
          show ("bytes").data = [ 'b', 'y', 't', 'e', 's' ] from rfl] at h
      simp at h
    have h4 : (("int").data ++ ds).take 4 ≠ ("uint").data := by
      intro h
      rw [show ("int").data = [ 'i', 'n', 't' ] from rfl,
          show ("uint").data = [ 'u', 'i', 'n', 't' ] from rfl] at h
      simp at h
    rw [fromStr_prim_eval _ hws hrp hrb, if_neg hb, if_neg h4,
        if_pos (List.take_left' (show (("int").data).length = 3 by decide)),
        List.drop_left' (show (("int").data).length = 3 by decide),
        parseUsize_digits ds h1 h2 h3]
  · intro ds h1 h2 h3
    obtain ⟨hws, hrp, hrb⟩ := hmem (("bytes").data) ds (by decide) h2
    have hb : ("bytes").data ++ ds ≠ ("bytes").data := by
      intro h
      have h0 := congrArg List.length h
      simp at h0
      exact h1 h0
    have h4 : (("bytes").data ++ ds).take 4 ≠ ("uint").data := by
      intro h
      rw [show ("bytes").data = [ 'b', 'y', 't', 'e', 's' ] from rfl,
          show ("uint").data = [ 'u', 'i', 'n', 't' ] from rfl] at h
      simp at h
    have h3t : (("bytes").data ++ ds).take 3 ≠ ("int").data := by
      intro h
      rw [show ("bytes").data = [ 'b', 'y', 't', 'e', 's' ] from rfl,
          show ("int").data = [ 'i', 'n', 't' ] from rfl] at h
      simp at h
    rw [fromStr_prim_eval _ hws hrp hrb, if_neg hb, if_neg h4, if_neg h3t,
        if_pos (List.take_left' (show (("bytes").data).length = 5 by decide)),
        List.drop_left' (show (("bytes").data).length = 5 by decide),
        parseUsize_digits ds h1 h2 h3]
  · intro p
    simp [SchemaParser.fieldtype_to_paramtype]

/-- Claim C6, witness: the amended uint clause applied to the digit string
"7" — uint7 is accepted with width 7. -/
theorem claim6_witness :
    (([ '7' ] : List Char) ≠ [])
    ∧ SchemaParser.FieldType.fromStr (("uint").data ++ [ '7' ])
        = .ok (.primitive (.uint (digitsVal [ '7' ]))) :=
  ⟨by decide, claim6_theorem.1 [ '7' ] (by decide) (by decide) (by decide)⟩

/-- Claim C7, counterexample: an empty byte string projects as the string
"0x", not as the empty string — `token_to_json` always prepends 0x, and
`bytes_to_hex` (which does return "" on empty input) is not used by the
projection. -/
theorem claim7_counterexample :
    token_to_json (.bytes []) = .str "0x" ∧ ("0x" : String) ≠ "" :=
  ⟨rfl, by decide⟩

/-- Claim C7 (amended): a 20-byte address value projects as a 0x-prefixed
42-character string whose hex part is lowercase hexadecimal, but an empty
byte string projects as "0x", not "": the helper `bytes_to_hex` returns ""
for empty input yet is not on the projection path. -/
theorem claim7_theorem : ∀ addr : List Nat, addr.length = 20 → (∀ b ∈ addr, b < 256) →
    (token_to_json (.address addr) = .str (String.mk ('0' :: 'x' :: hexEncode addr))
     ∧ ('0' :: 'x' :: hexEncode addr).length = 42
     ∧ ('0' :: 'x' :: hexEncode addr).take 2 = ("0x").data
     ∧ (∀ c ∈ hexEncode addr, c ∈ ("0123456789abcdef").data))
    ∧ token_to_json (.bytes []) = .str "0x"
    ∧ Lib.bytes_to_hex [] = "" := by
  intro addr hlen hb
  refine ⟨⟨rfl, ?_, rfl, hexEncode_mem addr hb⟩, rfl, rfl⟩
  simp [hexEncode_length, hlen]

/-- Claim C7, witness: the amended theorem applied to a concrete 20-byte
address. -/
theorem claim7_witness :
    (List.replicate 20 171).length = 20
    ∧ token_to_json (.address (List.replicate 20 171))
        = .str (String.mk ('0' :: 'x' :: hexEncode (List.replicate 20 171)))
    ∧ ('0' :: 'x' :: hexEncode (List.replicate 20 171)).length = 42 :=
  ⟨by decide, ((claim7_theorem _ (by decide) (by decide)).1).1,
   ((claim7_theorem _ (by decide) (by decide)).1).2.1⟩

/-- Claim C8, counterexample: a negative signed value is not projected as
its own decimal representation.  The int256 value -1 decodes to the
all-ones 256-bit word, and `token_to_json` prints that word as an unsigned
decimal instead of "-1". -/
theorem claim8_counterexample :
    token_to_json (.int (2 ^ 256 - 1))
      = .str "115792089237316195423570985008687907853269984665640564039457584007913129639935"
    ∧ int256Value (2 ^ 256 - 1) = -1
    ∧ ("115792089237316195423570985008687907853269984665640564039457584007913129639935"
        : String) ≠ "-1" :=
  ⟨rfl, by rw [int256Value, if_neg (by norm_num)]; norm_num, by decide⟩

/-- Claim C8 (amended): every integer token, signed or unsigned, projects
to a decimal string literal and never to a JSON number; for unsigned
values (and signed values below 2 to the 255, whose two's-complement
reading is the value itself) the string is the exact decimal
representation, but signed words at or above 2 to the 255 denote negative
values while the printed digit string is the unsigned reading of the raw
word. -/
theorem claim8_theorem :
    (∀ w : Nat, token_to_json (.uint w) = .str (Nat.repr w)
      ∧ (token_to_json (.uint w)).isNum = false)
    ∧ (∀ w : Nat, token_to_json (.int w) = .str (Nat.repr w)
      ∧ (token_to_json (.int w)).isNum = false)
    ∧ (∀ w : Nat, w < 2 ^ 255 → int256Value w = (w : Int))
    ∧ (∀ w : Nat, 2 ^ 255 ≤ w → w < 2 ^ 256 → int256Value w < 0) := by
  refine ⟨fun w => ⟨rfl, rfl⟩, fun w => ⟨rfl, rfl⟩, ?_, ?_⟩
  · intro w h
    rw [int256Value, if_pos h]
  · intro w h1 h2
    rw [int256Value, if_neg (not_lt.mpr h1)]
    omega

/-- Claim C8, witness: the unsigned clause at 2 to the 53, which projects
to its exact decimal string, and the nonnegative signed clause at the same
word. -/
theorem claim8_witness :
    token_to_json (.uint (2 ^ 53)) = .str "9007199254740992"
    ∧ int256Value (2 ^ 53) = ((2 ^ 53 : Nat) : Int) :=
  ⟨((claim8_theorem.1 (2 ^ 53)).1).trans
     (congrArg Value.str (by decide : Nat.repr (2 ^ 53) = "9007199254740992")),
   claim8_theorem.2.2.1 (2 ^ 53) (by norm_num)⟩

/-- Claim C9: building the output object inserts fields in order under
their names, and an insert overwrites the value already stored for the
key, so the value found for a name is the one of the last field carrying
that name; on the schema "uint8,uint8" both fields default to the name
"field" and `decode_data` yields a one-entry object (fewer entries than
the schema has fields) holding the projection of the second token. -/
theorem claim9_theorem :
    (∀ (pairs : List (String × Value)) (k : String),
        objLookup k (objOfPairs pairs)
          = (pairs.reverse.find? fun p => p.1 == k).map Prod.snd)
    ∧ (∀ a b : Nat,
        Lib.decode_data (fun _ _ => Except.ok [Token.uint a, Token.uint b]) []
            (("uint8,uint8").data)
          = .ok [("field", .str (Nat.repr b))]) := by
  refine ⟨objLookup_objOfPairs, ?_⟩
  intro a b
  have hp : Lib.parse_schema_fields (("uint8,uint8").data)
      = .ok [(.uint 8, "field"), (.uint 8, "field")] := rfl
  unfold Lib.decode_data
  rw [hp]
  simp [objOfPairs, mapInsert, token_to_json]

/-- Claim C10: when the lock-stepped trees differ in length the projection
covers exactly the first min(k, m) positions: the tuple clause of
`token_to_json_with_schema` produces (for distinct names) exactly the
zipped pairs, whose count is min of the two lengths, with no null or
marker for dropped positions; and `decode_data` on a 3-field schema with a
2-token decode result emits an object with exactly the first 2 fields. -/
theorem claim10_theorem :
    (∀ (fields : List (SchemaParser.FieldType × String)) (tokens : List Token),
        (fields.map Prod.snd).Nodup →
        SchemaParser.token_to_json_with_schema (.tuple fields) (.tuple tokens)
          = .obj ((fields.zip tokens).map fun p =>
              (p.1.2, SchemaParser.token_to_json_with_schema p.1.1 p.2))
        ∧ ((fields.zip tokens).map fun p =>
              (p.1.2, SchemaParser.token_to_json_with_schema p.1.1 p.2)).length
            = min fields.length tokens.length)
    ∧ Lib.decode_data (fun _ _ => Except.ok [Token.uint 1, Token.uint 2]) []
          (("uint8 a,uint8 b,uint8 c").data)
        = .ok [("a", .str "1"), ("b", .str "2")] := by
  refine ⟨fun fields tokens h => ⟨tjws_tuple_obj_of_nodup fields tokens h, ?_⟩, rfl⟩
  rw [List.length_map]
  exact List.length_zip fields tokens

/-- An attestation oracle for the claim C4 instances: every uid resolves to
an attestation referencing schema id [7] with an empty payload. -/
def attOracleC4 : List Nat → Lib.Attestation := fun u =>
  { uid := u, schema := [7], time := 0, expiration_time := 0, revocation_time := 0,
    ref_uid := [], recipient := [], attester := [], revocable := false, data := [] }

/-- A schema oracle for the claim C4 instances: every schema id resolves to
the schema text "bool". -/
def schOracleC4 : List Nat → Lib.SchemaRecord := fun u =>
  { uid_id := u, resolver := [], revocable := false, schema := ("bool").data }

/-- A decoder oracle for the claim C4 instances. -/
def decOracleC4 : List ParamType → List Nat → Except String (List Token) :=
  fun _ _ => .ok [Token.bool true]

/-- An event stub for the claim C4 instances. -/
def evC4 (n : Nat) : Lib.AttestedEvent :=
  { uid := [n], schemaId := [7], attester := [], recipient := [] }

/-- Claim C4, counterexample: two matched events referencing the same
single schema id cause two `GetSchema` fetches, not at most one per
distinct schema id — `map_eas_events` de-duplicates nothing. -/
theorem claim4_counterexample :
    (Lib.map_eas_events attOracleC4 schOracleC4 decOracleC4 [some (evC4 1), some (evC4 2)]).2
      = [.getAttestation [1], .getSchema [7], .getAttestation [2], .getSchema [7]]
    ∧ (((Lib.map_eas_events attOracleC4 schOracleC4 decOracleC4
          [some (evC4 1), some (evC4 2)]).2.filter Lib.EthCall.isSchemaFetch).length = 2)
    ∧ ((((Lib.map_eas_events attOracleC4 schOracleC4 decOracleC4
          [some (evC4 1), some (evC4 2)]).2.filterMap Lib.EthCall.schemaFetchId).dedup).length
        = 1) :=
  ⟨rfl, by decide, by decide⟩

/-- Claim C4 (amended): for every block that completes without a panic,
`map_eas_events` issues exactly one `GetSchema` fetch and exactly one
`GetAttestation` fetch per matched event — one schema fetch per record,
with no batching and no collapsing of duplicate schema ids. -/
theorem claim4_theorem : ∀ (getAtt : List Nat → Lib.Attestation)
    (getSch : List Nat → Lib.SchemaRecord)
    (dec : List ParamType → List Nat → Except String (List Token))
    (logs : List (Option Lib.AttestedEvent)),
    ((Lib.map_eas_events getAtt getSch dec logs).1).isPanic = false →
    ((Lib.map_eas_events getAtt getSch dec logs).2.filter Lib.EthCall.isSchemaFetch).length
        = (logs.filterMap id).length
    ∧ ((Lib.map_eas_events getAtt getSch dec logs).2.filter Lib.EthCall.isRecordFetch).length
        = (logs.filterMap id).length := by
  intro getAtt getSch dec logs
  induction logs with
  | nil =>
    intro _
    simp [Lib.map_eas_events]
  | cons l logs ih =>
    cases l with
    | none =>
      intro h
      simp only [Lib.map_eas_events, List.filterMap_cons_none] at h ⊢
      exact ih h
    | some ev =>
      intro h
      simp only [Lib.map_eas_events] at h ⊢
      cases hd : Lib.decode_data dec (getAtt ev.uid).data (getSch (getAtt ev.uid).schema).schema
          with
      | panic m =>
        rw [hd] at h
        simp [PResult.isPanic] at h
      | ok obj =>
        rw [hd] at h
        dsimp only at h ⊢
        have hrest : ((Lib.map_eas_events getAtt getSch dec logs).1).isPanic = false := by
          cases hr : (Lib.map_eas_events getAtt getSch dec logs).1 with
          | ok records => rfl
          | panic m => rw [hr] at h; simp [PResult.isPanic] at h
        obtain ⟨h1, h2⟩ := ih hrest
        simp [List.filter_cons, Lib.EthCall.isSchemaFetch, Lib.EthCall.isRecordFetch]
        omega

/-- Claim C4, witness: the amended theorem applied to one matched and one
unmatched log — one schema fetch and one record fetch are issued. -/
theorem claim4_witness :
    ((Lib.map_eas_events attOracleC4 schOracleC4 decOracleC4 [some (evC4 1), none]).1).isPanic
        = false
    ∧ ((Lib.map_eas_events attOracleC4 schOracleC4 decOracleC4
          [some (evC4 1), none]).2.filter Lib.EthCall.isSchemaFetch).length
        = ([some (evC4 1), none].filterMap id).length :=
  ⟨rfl, (claim4_theorem attOracleC4 schOracleC4 decOracleC4 [some (evC4 1), none] rfl).1⟩

/-- Claim C10, witness instance for the tuple clause, with 2 fields zipped
against 1 token: the object holds exactly min 2 1 = 1 entry. -/
theorem claim10_witness :
    (([(SchemaParser.FieldType.primitive ParamType.bool, "x"),
       (SchemaParser.FieldType.primitive ParamType.bool, "y")].map Prod.snd).Nodup)
    ∧ (List.map (fun p => (p.1.2, SchemaParser.token_to_json_with_schema p.1.1 p.2))
         ([(SchemaParser.FieldType.primitive ParamType.bool, "x"),
           (SchemaParser.FieldType.primitive ParamType.bool, "y")].zip
            [Token.bool true])).length
        = min 2 1 :=
  ⟨by decide, (claim10_theorem.1 _ _ (by decide)).2⟩

end EAS
